import Mathlib

/-! Little Lemon booking form: validators and form controller.

A shallow embedding of `src/utils/validation.js` and of the state handling of
`src/components/BookingForm.js`.

JavaScript strings are modelled by Lean `String`s (sequences of code points).
`String.prototype.length` counts UTF-16 code units, so it is modelled by
`jsLength`, which counts two units for every code point above U+FFFF.
Numbers returned by `parseInt` are modelled by exact integers: the only uses
of the result are the comparisons `< 1` and `> 10`, which rounding to a double
does not change (`NaN` is `none`, `-0` is `0`).
-/

set_option linter.constructorNameAsVariable false

namespace LittleLemon

/-! ## JavaScript string primitives -/

/-- The code points ECMAScript treats as `WhiteSpace` or `LineTerminator`:
the characters removed by `String.prototype.trim`, skipped by `parseInt`
and matched by `\s` in a regular expression. -/
def isJsWhitespace (c : Char) : Bool :=
  c.toNat = 0x09 || c.toNat = 0x0A || c.toNat = 0x0B || c.toNat = 0x0C || c.toNat = 0x0D ||
  c.toNat = 0x20 || c.toNat = 0xA0 || c.toNat = 0x1680 ||
  (0x2000 ≤ c.toNat && c.toNat ≤ 0x200A) ||
  c.toNat = 0x2028 || c.toNat = 0x2029 || c.toNat = 0x202F || c.toNat = 0x205F ||
  c.toNat = 0x3000 || c.toNat = 0xFEFF

/-- Leading white space removed (`TrimString(s, start)`). -/
def trimStart (cs : List Char) : List Char :=
  cs.dropWhile isJsWhitespace

/-- Trailing white space removed (`TrimString(s, end)`). -/
def trimEnd (cs : List Char) : List Char :=
  (cs.reverse.dropWhile isJsWhitespace).reverse

/-- The method `String.prototype.trim`. -/
def jsTrim (s : String) : String :=
  ⟨trimEnd (trimStart s.data)⟩

/-- Number of UTF-16 code units of one code point. -/
def utf16Units (c : Char) : Nat :=
  if c.toNat < 0x10000 then 1 else 2

/-- The property `String.prototype.length`: the number of UTF-16 code units. -/
def jsLength (s : String) : Nat :=
  (s.data.map utf16Units).sum

/-- A decimal digit `0`..`9`. -/
def isDigit (c : Char) : Bool :=
  48 ≤ c.toNat && c.toNat ≤ 57

/-- Value of a run of decimal digits, most significant first. -/
def digitsValue (ds : List Char) : Nat :=
  ds.foldl (fun acc c => 10 * acc + (c.toNat - 48)) 0

/-- Sign handling of `parseInt`: a leading `-` gives sign `-1`, and a leading
`+` or `-` is removed. -/
def stripSign : List Char → Int × List Char
  | [] => (1, [])
  | c :: rest =>
    if c = '-' then (-1, rest)
    else if c = '+' then (1, rest)
    else (1, c :: rest)

/-- The call `parseInt(s, 10)`: skip leading white space, read an optional
sign, then the longest run of decimal digits; `none` (NaN) when that run is
empty.  Whatever follows the digits is ignored. -/
def parseInt10 (s : String) : Option Int :=
  let signed := stripSign (trimStart s.data)
  let z := signed.2.takeWhile isDigit
  if z = [] then none else some (signed.1 * (digitsValue z : Int))

/-! ## A backtracking matcher for the e-mail pattern -/

/-- The suffixes that can remain after `[class]+` has consumed one or more
characters of the class from the front of the input. -/
def rxPlus (p : Char → Bool) : List Char → List (List Char)
  | [] => []
  | c :: cs => if p c then cs :: rxPlus p cs else []

/-- The suffix that remains after the literal character `c` has been consumed. -/
def rxChar (c : Char) : List Char → List (List Char)
  | [] => []
  | d :: cs => if d = c then [cs] else []

/-- The character class `[^\s@]`. -/
def emailClass (c : Char) : Bool :=
  !isJsWhitespace c && !(c = '@')

/-- The test `/^[^\s@]+@[^\s@]+\.[^\s@]+$/.test(s)`: some way of matching the
five pieces in sequence consumes the whole input.  The pattern has no flags,
so it runs over UTF-16 code units; neither half of a surrogate pair is white
space or `@`, so running over code points accepts the same strings. -/
def emailRegexTest (s : String) : Bool :=
  (((((rxPlus emailClass s.data).flatMap (rxChar '@')).flatMap (rxPlus emailClass)).flatMap
    (rxChar '.')).flatMap (rxPlus emailClass)).any List.isEmpty

/-! ## Validators (`src/utils/validation.js`) -/

/-- The function `validateTime`. -/
def validateTime (time : String) : String :=
  if time = "" then "Please select a time"
  else ""

/-- The function `validateGuests`. -/
def validateGuests (guests : String) : String :=
  if guests = "" then "Please enter number of guests"
  else
    match parseInt10 guests with
    | none => "Please enter a valid number"
    | some numGuests =>
      if numGuests < 1 then "Minimum 1 guest required"
      else if numGuests > 10 then "Maximum 10 guests allowed. Please contact us for larger parties."
      else ""

/-- The function `validateName`. -/
def validateName (name : String) : String :=
  if name = "" ∨ jsTrim name = "" then "Please enter your name"
  else if jsLength (jsTrim name) < 2 then "Name must be at least 2 characters"
  else ""

/-- The function `validateEmail`. -/
def validateEmail (email : String) : String :=
  if email = "" ∨ jsTrim email = "" then "Please enter your email"
  else if !emailRegexTest email then "Please enter a valid email address"
  else ""

/-! ## Dates

Time values are milliseconds since the epoch, as in ECMAScript.  `Date.parse`
is only specified for the ISO formats and is otherwise left to the engine, so
the validator takes it from the environment; `isoDateParse` is the specified
behaviour on date-only strings `YYYY-MM-DD` (midnight UTC of that day).
The time zone is a fixed offset from UTC.
-/

/-- Milliseconds per day. -/
def msPerDay : Int := 86400000

/-- What `validateDate` reads from its environment. -/
structure Clock where
  /-- Time value of `new Date()`. -/
  now : Int
  /-- Local time zone adjustment in milliseconds: local time is `t + tza`. -/
  tza : Int
  /-- Time value of `new Date(s)`; `none` is an invalid date (`NaN`). -/
  parse : String → Option Int

/-- Time value of `today` after `today.setHours(0, 0, 0, 0)`: the local
day of `now` at local midnight, converted back to UTC. -/
def localMidnight (clock : Clock) : Int :=
  (clock.now + clock.tza) / msPerDay * msPerDay - clock.tza

/-- Number of the local calendar day (days since 1970-01-01) that contains `now`. -/
def localDay (clock : Clock) : Int :=
  (clock.now + clock.tza) / msPerDay

/-- The comparison `selectedDate < today` of two dates: false when the left
one is invalid. -/
def dateLt (selectedDate : Option Int) (today : Int) : Bool :=
  match selectedDate with
  | some t => decide (t < today)
  | none => false

/-- The function `validateDate`. -/
def validateDate (clock : Clock) (date : String) : String :=
  if date = "" then "Please select a date"
  else
    let selectedDate := clock.parse date
    let today := localMidnight clock
    if dateLt selectedDate today then "Please select a future date"
    else ""

/-- Gregorian leap years. -/
def isLeapYear (y : Int) : Bool :=
  (y % 4 = 0 && !(y % 100 = 0)) || y % 400 = 0

/-- Number of days of month `m` (1..12) of year `y`. -/
def daysInMonth (y m : Int) : Int :=
  if m = 2 then (if isLeapYear y then 29 else 28)
  else if m = 4 ∨ m = 6 ∨ m = 9 ∨ m = 11 then 30
  else 31

/-- Days from 1970-01-01 to the Gregorian date `y`-`m`-`d` (`MakeDay`). -/
def daysFromCivil (y m d : Int) : Int :=
  let y1 := if m ≤ 2 then y - 1 else y
  let era := y1 / 400
  let yoe := y1 - era * 400
  let mp := (m + 9) % 12
  let doy := (153 * mp + 2) / 5 + d - 1
  let doe := yoe * 365 + yoe / 4 - yoe / 100 + doy
  era * 146097 + doe - 719468

/-- Day number of a date-only ISO string `YYYY-MM-DD`, `none` for any other
string.  Engines parse more than this (`YYYY`, `YYYY-MM`, date-times and
free-form dates), which is why the validator takes `parse` from the clock;
this parser serves to evaluate the validator at date-only strings. -/
def isoDay (s : String) : Option Int :=
  match s.data with
  | [y1, y2, y3, y4, s1, m1, m2, s2, d1, d2] =>
    if s1 = '-' ∧ s2 = '-' ∧ [y1, y2, y3, y4, m1, m2, d1, d2].all isDigit then
      let y : Int := digitsValue [y1, y2, y3, y4]
      let m : Int := digitsValue [m1, m2]
      let d : Int := digitsValue [d1, d2]
      if 1 ≤ m ∧ m ≤ 12 ∧ 1 ≤ d ∧ d ≤ daysInMonth y m then some (daysFromCivil y m d)
      else none
    else none
  | _ => none

/-- Time value of a date-only ISO string: midnight UTC of that day. -/
def isoDateParse (s : String) : Option Int :=
  (isoDay s).map (fun day => day * msPerDay)

/-! ## Time-slot store (`src/pages/Reservations.js`) -/

/-- An action sent to the time-slot reducer. -/
structure Action where
  type : String
  date : String
deriving DecidableEq

/-- The function `initializeTimes`. -/
def initializeTimes : List String :=
  ["17:00", "18:00", "19:00", "20:00", "21:00", "22:00"]

/-- The function `timesReducer`. -/
def timesReducer (state : List String) (action : Action) : List String :=
  if action.type = "UPDATE_TIMES" then initializeTimes
  else state

/-! ## Form controller (`src/components/BookingForm.js`) -/

/-- The `name` attributes of the seven inputs of the form. -/
inductive Field where
  | date | time | guests | occasion | name | email | specialRequests
deriving DecidableEq, Repr

/-- The `formData` object. -/
structure FormData where
  date : String
  time : String
  guests : String
  occasion : String
  name : String
  email : String
  specialRequests : String
deriving DecidableEq

/-- Property read `formData[name]`. -/
def FormData.get (fd : FormData) : Field → String
  | .date => fd.date
  | .time => fd.time
  | .guests => fd.guests
  | .occasion => fd.occasion
  | .name => fd.name
  | .email => fd.email
  | .specialRequests => fd.specialRequests

/-- The object `{ ...prev, [name]: value }` for a `formData` object. -/
def FormData.set (fd : FormData) (name : Field) (value : String) : FormData :=
  match name with
  | .date => { fd with date := value }
  | .time => { fd with time := value }
  | .guests => { fd with guests := value }
  | .occasion => { fd with occasion := value }
  | .name => { fd with name := value }
  | .email => { fd with email := value }
  | .specialRequests => { fd with specialRequests := value }

/-- A JavaScript object keyed by field names: its own properties in
insertion order, as `Object.keys` and `Object.values` enumerate them. -/
abbrev JsObject (α : Type) := List (Field × α)

/-- Property read `obj[key]`; `none` is `undefined`. -/
def JsObject.get {α : Type} (obj : JsObject α) (key : Field) : Option α :=
  match obj with
  | [] => none
  | (k, v) :: rest => if k = key then some v else JsObject.get rest key

/-- The object `{ ...prev, [key]: value }`: an existing key keeps its place
and gets the new value, a new key goes last. -/
def JsObject.assign {α : Type} (prev : JsObject α) (key : Field) (value : α) : JsObject α :=
  match prev with
  | [] => [(key, value)]
  | (k, v) :: rest =>
    if k = key then (k, value) :: rest else (k, v) :: JsObject.assign rest key value

/-- The component state: the three `useState` cells. -/
structure State where
  formData : FormData
  errors : JsObject String
  touched : JsObject Bool
deriving DecidableEq

/-- The state of a freshly mounted form. -/
def initialState : State where
  formData :=
    { date := "", time := "", guests := "", occasion := "birthday",
      name := "", email := "", specialRequests := "" }
  errors := []
  touched := []

/-- Truthiness of `touched[name]`. -/
def isTouched (touched : JsObject Bool) (name : Field) : Bool :=
  (JsObject.get touched name).getD false

/-- The `switch` of `validateField`: the error message computed for a field. -/
def fieldError (clock : Clock) (fieldName : Field) (value : String) : String :=
  match fieldName with
  | .date => validateDate clock value
  | .time => validateTime value
  | .guests => validateGuests value
  | .name => validateName value
  | .email => validateEmail value
  | _ => ""

/-- The function `validateField`: the `errors` object after its `setErrors`
update, and its return value. -/
def validateField (clock : Clock) (errors : JsObject String) (fieldName : Field)
    (value : String) : JsObject String × Bool :=
  let error := fieldError clock fieldName value
  (JsObject.assign errors fieldName error, decide (error = ""))

/-- The action `handleChange` dispatches to the time-slot store, if any. -/
def handleChangeDispatch (hasDispatch : Bool) (name : Field) (value : String) : Option Action :=
  if name = Field.date ∧ hasDispatch = true then some { type := "UPDATE_TIMES", date := value }
  else none

/-- The function `handleChange` for an input named `name` whose value is `value`. -/
def handleChange (clock : Clock) (s : State) (name : Field) (value : String) : State :=
  let formData := s.formData.set name value
  if isTouched s.touched name then
    { s with formData := formData, errors := (validateField clock s.errors name value).1 }
  else
    { s with formData := formData }

/-- The function `handleBlur` for an input named `name`. -/
def handleBlur (clock : Clock) (s : State) (name : Field) : State :=
  { s with
    touched := JsObject.assign s.touched name true
    errors := (validateField clock s.errors name (s.formData.get name)).1 }

/-- The function `validateForm`: the new `errors` object and the return value. -/
def validateForm (clock : Clock) (formData : FormData) : JsObject String × Bool :=
  let newErrors : JsObject String :=
    [(Field.date, validateDate clock formData.date),
     (Field.time, validateTime formData.time),
     (Field.guests, validateGuests formData.guests),
     (Field.name, validateName formData.name),
     (Field.email, validateEmail formData.email)]
  (newErrors, (newErrors.map Prod.snd).all (fun error => decide (error = "")))

/-- What a submission does besides updating the state. -/
structure SubmitEffect where
  /-- The booking passed to `navigate('/confirmed', ...)`, if it was called. -/
  booking : Option FormData
  /-- The field whose element received focus, if any. -/
  focus : Option Field
deriving DecidableEq

/-- The expression `Object.keys(errors).find(key => errors[key])`. -/
def firstErrorField (errors : JsObject String) : Option Field :=
  (errors.map Prod.fst).find? (fun key => decide ((JsObject.get errors key).getD "" ≠ ""))

/-- The function `handleSubmit`.  The `errors` it searches for the field to
focus is the one of the render the handler was created in, that is, the
state before this submission. -/
def handleSubmit (clock : Clock) (s : State) : State × SubmitEffect :=
  let touched : JsObject Bool :=
    [(Field.date, true), (Field.time, true), (Field.guests, true),
     (Field.name, true), (Field.email, true)]
  let validated := validateForm clock s.formData
  let s1 : State := { s with touched := touched, errors := validated.1 }
  if validated.2 then
    (s1, { booking := some s.formData, focus := none })
  else
    (s1, { booking := none, focus := firstErrorField s.errors })

/-- The function `isFormValid`, as the truth value the `disabled` attribute uses. -/
def isFormValid (s : State) : Bool :=
  decide (s.formData.date ≠ "") && decide (s.formData.time ≠ "") &&
  decide (s.formData.guests ≠ "") && decide (s.formData.name ≠ "") &&
  decide (s.formData.email ≠ "") &&
  (s.errors.map Prod.snd).all (fun error => decide (error = ""))

/-- The events the handlers react to.  A blur may name any field here; the
form itself delivers blurs only from the inputs in `blurFields`. -/
inductive Event where
  | change (name : Field) (value : String)
  | blur (name : Field)
  | submit
deriving DecidableEq

/-- The state after one event. -/
def step (clock : Clock) (s : State) : Event → State
  | .change name value => handleChange clock s name value
  | .blur name => handleBlur clock s name
  | .submit => (handleSubmit clock s).1

/-- The state after a sequence of events, starting from `s`. -/
def run (clock : Clock) (s : State) (events : List Event) : State :=
  events.foldl (step clock) s

/-- A clock whose `Date.parse` is the ISO date-only parser. -/
def isoClock (now tza : Int) : Clock :=
  { now := now, tza := tza, parse := isoDateParse }

/-- The five fields that `validateForm` validates and `handleSubmit` marks as touched. -/
def requiredFields : List Field :=
  [Field.date, Field.time, Field.guests, Field.name, Field.email]

/-- A clock in a zone five hours behind UTC, at 2024-03-10 15:00 UTC, which
is 10:00 local time on 2024-03-10. -/
def westClock : Clock :=
  isoClock 1710082800000 (-18000000)

/-- The inputs whose markup carries `onBlur={handleBlur}`: the date, time,
guests, name and email inputs.  The occasion select and the special-requests
text area have a change handler only, so the form never receives a blur from
them. -/
def blurFields : List Field :=
  [Field.date, Field.time, Field.guests, Field.name, Field.email]

/-- The initial state of the store: `useReducer(timesReducer, [], initializeTimes)`
starts from what `initializeTimes` returns. -/
def initialAvailableTimes : List String :=
  initializeTimes

/-- The change events of a user who fills the form with the date `d`, the
time 18:00, fifteen guests, a name and an e-mail address, leaving no field. -/
def fillWithFifteenGuests (d : String) : List Event :=
  [Event.change Field.date d, Event.change Field.time "18:00",
   Event.change Field.guests "15", Event.change Field.name "John Doe",
   Event.change Field.email "test@example.com"]

/-! ## Vocabulary of the specification -/

/-- The field a failed submission should focus as the specification words
it: the first field, in the fixed order date, time, guests, occasion, name,
email, whose error computed on the current draft is non-empty. -/
def specFirstInvalidField (clock : Clock) (formData : FormData) : Option Field :=
  [Field.date, Field.time, Field.guests, Field.occasion, Field.name, Field.email].find?
    (fun f => decide (fieldError clock f (formData.get f) ≠ ""))

/-- The invariant of the specification: the `errors` entry of every touched
field is the output of that field's validator on the current draft value. -/
def ErrorsFollowDraft (clock : Clock) (s : State) : Prop :=
  ∀ f : Field, isTouched s.touched f = true →
    JsObject.get s.errors f = some (fieldError clock f (s.formData.get f))

/-- An integer string as the specification words it: an optional sign followed
by one or more decimal digits and nothing else. -/
def isIntegerString (g : String) : Bool :=
  match g.data with
  | [] => false
  | c :: rest =>
    if c = '-' ∨ c = '+' then !rest.isEmpty && rest.all isDigit
    else (c :: rest).all isDigit

/-- The shape of an accepted e-mail address as the specification words it:
no white space, a non-empty local part before an `@`, and a `.` somewhere in
the part after that `@`. -/
def SpecEmailShape (e : String) : Prop :=
  (∀ c ∈ e.data, isJsWhitespace c = false) ∧
  ∃ localPart domain : List Char,
    e.data = localPart ++ '@' :: domain ∧ localPart ≠ [] ∧ '.' ∈ domain

/-! ## Basic facts about the string primitives -/

theorem str_eq_empty_iff (s : String) : s = "" ↔ s.data = [] := by
  cases s with
  | mk data =>
    constructor
    · intro h
      have := congrArg String.data h
      simpa using this
    · intro h
      simp at h
      subst h
      rfl

theorem digit_not_whitespace {c : Char} (h : isDigit c = true) : isJsWhitespace c = false := by
  simp only [isDigit, Bool.and_eq_true, decide_eq_true_eq] at h
  simp only [isJsWhitespace, Bool.or_eq_false_iff, Bool.and_eq_false_iff, decide_eq_false_iff_not]
  omega

theorem trimStart_append {ws l : List Char} (hws : ∀ c ∈ ws, isJsWhitespace c = true)
    (hl : ∀ c ∈ l.head?, isJsWhitespace c = false) : trimStart (ws ++ l) = l := by
  induction ws with
  | nil =>
    cases l with
    | nil => rfl
    | cons c cs =>
      have := hl c (by simp)
      simp [trimStart, List.dropWhile, this]
  | cons w ws ih =>
    have hw := hws w (by simp)
    have := ih (fun c hc => hws c (by simp [hc]))
    simpa [trimStart, List.dropWhile, hw] using this

theorem takeWhile_digits_append {ds rest : List Char} (hds : ∀ c ∈ ds, isDigit c = true)
    (hrest : ∀ c ∈ rest.head?, isDigit c = false) : (ds ++ rest).takeWhile isDigit = ds := by
  induction ds with
  | nil =>
    cases rest with
    | nil => rfl
    | cons c cs =>
      have := hrest c (by simp)
      simp [List.takeWhile, this]
  | cons d ds ih =>
    have hd := hds d (by simp)
    have := ih (fun c hc => hds c (by simp [hc]))
    simp [List.takeWhile, hd, this]

theorem head_dropWhile_digits (l : List Char) :
    ∀ c ∈ (l.dropWhile isDigit).head?, isDigit c = false := by
  induction l with
  | nil => simp
  | cons a l ih =>
    intro c hc
    by_cases ha : isDigit a = true
    · simp only [List.dropWhile, ha] at hc
      exact ih c hc
    · simp only [Bool.not_eq_true] at ha
      simp only [List.dropWhile, ha, List.head?_cons, Option.mem_def, Option.some.injEq] at hc
      subst hc
      exact ha

theorem head_trimStart (l : List Char) :
    ∀ c ∈ (trimStart l).head?, isJsWhitespace c = false := by
  induction l with
  | nil => simp [trimStart]
  | cons a l ih =>
    intro c hc
    by_cases ha : isJsWhitespace a = true
    · simp only [trimStart, List.dropWhile, ha] at hc
      exact ih c hc
    · simp only [Bool.not_eq_true] at ha
      simp only [trimStart, List.dropWhile, ha, List.head?_cons, Option.mem_def,
        Option.some.injEq] at hc
      subst hc
      exact ha


theorem parseInt10_of_shape {g : String} {ws sign digits rest : List Char}
    (hg : g.data = ws ++ sign ++ digits ++ rest)
    (hws : ∀ c ∈ ws, isJsWhitespace c = true)
    (hsign : sign = [] ∨ sign = ['+'])
    (hne : digits ≠ [])
    (hds : ∀ c ∈ digits, isDigit c = true)
    (hrest : ∀ c ∈ rest.head?, isDigit c = false) :
    parseInt10 g = some (digitsValue digits : Int) := by
  obtain ⟨d, ds, rfl⟩ := List.exists_cons_of_ne_nil hne
  have hd : isDigit d = true := hds d (by simp)
  have hdm : d ≠ '-' := by
    intro h
    subst h
    exact absurd hd (by decide)
  have hdp : d ≠ '+' := by
    intro h
    subst h
    exact absurd hd (by decide)
  have htake := takeWhile_digits_append hds hrest
  rcases hsign with rfl | rfl
  · have htrim : trimStart g.data = d :: ds ++ rest := by
      rw [hg]
      simpa using trimStart_append (l := d :: ds ++ rest) hws
        (by simpa using digit_not_whitespace hd)
    simp only [parseInt10, htrim, List.cons_append, stripSign, hdm, hdp, if_false]
    rw [← List.cons_append, htake]
    simp
  · have htrim : trimStart g.data = '+' :: (d :: ds ++ rest) := by
      rw [hg]
      simpa using trimStart_append (l := '+' :: (d :: ds ++ rest)) hws
        (by simp; decide)
    have hpm : ('+' : Char) ≠ '-' := by decide
    simp only [parseInt10, htrim, stripSign, hpm, if_false, if_true]
    rw [htake]
    simp

theorem shape_of_parseInt10 {g : String} {n : Int} (h : parseInt10 g = some n) (hn : 1 ≤ n) :
    ∃ ws sign digits rest, g.data = ws ++ sign ++ digits ++ rest ∧
      (∀ c ∈ ws, isJsWhitespace c = true) ∧ (sign = [] ∨ sign = ['+']) ∧ digits ≠ [] ∧
      (∀ c ∈ digits, isDigit c = true) ∧ (∀ c ∈ rest.head?, isDigit c = false) ∧
      n = (digitsValue digits : Int) := by
  obtain ⟨pre, hws, hsplit⟩ : ∃ pre : List Char,
      (∀ c ∈ pre, isJsWhitespace c = true) ∧ g.data = pre ++ trimStart g.data :=
    ⟨g.data.takeWhile isJsWhitespace, fun c hc => List.mem_takeWhile_imp hc, by simp [trimStart]⟩
  unfold parseInt10 at h
  cases hS : trimStart g.data with
  | nil => simp [hS, stripSign] at h
  | cons c r =>
    rw [hS] at h hsplit
    by_cases hm : c = '-'
    · simp only [stripSign, hm, if_true] at h
      split at h
      · simp at h
      · simp only [Option.some.injEq] at h
        have : (0 : Int) ≤ (digitsValue (List.takeWhile isDigit r) : Int) := Int.ofNat_nonneg _
        omega
    · by_cases hp : c = '+'
      · subst hp
        simp only [stripSign, hm, if_false, if_true] at h
        split at h
        · simp at h
        · rename_i hz
          simp only [Option.some.injEq, one_mul] at h
          refine ⟨pre, ['+'], r.takeWhile isDigit, r.dropWhile isDigit, ?_, hws, Or.inr rfl, hz,
            fun c hc => (List.mem_takeWhile_imp hc), head_dropWhile_digits r, h.symm⟩
          rw [hsplit]
          simp [List.takeWhile_append_dropWhile]
      · simp only [stripSign, hm, hp, if_false] at h
        split at h
        · simp at h
        · rename_i hz
          simp only [Option.some.injEq, one_mul] at h
          refine ⟨pre, [], (c :: r).takeWhile isDigit, (c :: r).dropWhile isDigit, ?_, hws,
            Or.inl rfl, hz, fun c hc => (List.mem_takeWhile_imp hc),
            head_dropWhile_digits (c :: r), h.symm⟩
          rw [hsplit]
          simp [List.takeWhile_append_dropWhile]

theorem validateGuests_eq_empty_iff (g : String) :
    validateGuests g = "" ↔ ∃ n, parseInt10 g = some n ∧ 1 ≤ n ∧ n ≤ 10 := by
  unfold validateGuests
  by_cases hg : g = ""
  · subst hg
    simp only [if_true]
    constructor
    · intro h
      exact absurd h (by decide)
    · rintro ⟨n, h, -⟩
      have hnone : parseInt10 "" = none := by decide
      rw [hnone] at h
      cases h
  · simp only [hg, if_false]
    cases hp : parseInt10 g with
    | none =>
      simp only [false_and, exists_false, iff_false, reduceCtorEq]
      decide
    | some n =>
      simp only [Option.some.injEq]
      by_cases h1 : n < 1
      · simp only [h1, if_true]
        constructor
        · intro h
          exact absurd h (by decide)
        · rintro ⟨m, rfl, h, -⟩
          omega
      · by_cases h2 : n > 10
        · simp only [h1, h2, if_true, if_false]
          constructor
          · intro h
            exact absurd h (by decide)
          · rintro ⟨m, rfl, -, h⟩
            omega
        · simp only [h1, h2, if_false, true_iff]
          exact ⟨n, rfl, by omega, by omega⟩

theorem rxPlus_mem (p : Char → Bool) (s r : List Char) :
    r ∈ rxPlus p s ↔ ∃ a, a ≠ [] ∧ (∀ x ∈ a, p x = true) ∧ s = a ++ r := by
  induction s with
  | nil =>
    simp only [rxPlus, List.not_mem_nil, false_iff]
    rintro ⟨a, hne, -, h⟩
    cases a with
    | nil => exact hne rfl
    | cons x xs => simp at h
  | cons c cs ih =>
    by_cases hc : p c = true
    · simp only [rxPlus, hc, if_true, List.mem_cons, ih]
      constructor
      · rintro (rfl | ⟨a, -, ha, rfl⟩)
        · exact ⟨[c], by simp, by simpa using hc, rfl⟩
        · exact ⟨c :: a, by simp, by simpa [hc] using ha, rfl⟩
      · rintro ⟨a, hne, ha, h⟩
        cases a with
        | nil => exact absurd rfl hne
        | cons x xs =>
          simp only [List.cons_append, List.cons.injEq] at h
          obtain ⟨rfl, rfl⟩ := h
          cases xs with
          | nil => exact Or.inl rfl
          | cons y ys =>
            exact Or.inr ⟨y :: ys, by simp, fun z hz => ha z (by simp [List.mem_cons] at hz ⊢; tauto), rfl⟩
    · simp only [rxPlus, hc, Bool.false_eq_true, if_false, List.not_mem_nil, false_iff]
      rintro ⟨a, hne, ha, h⟩
      cases a with
      | nil => exact hne rfl
      | cons x xs =>
        simp only [List.cons_append, List.cons.injEq] at h
        exact hc (h.1 ▸ ha x (by simp))

theorem rxChar_mem (c : Char) (s r : List Char) : r ∈ rxChar c s ↔ s = c :: r := by
  cases s with
  | nil => simp [rxChar]
  | cons d cs =>
    by_cases h : d = c
    · simp [rxChar, h, eq_comm]
    · simp [rxChar, h]

theorem emailRegexTest_iff (e : String) :
    emailRegexTest e = true ↔
      ∃ a b c : List Char, e.data = a ++ '@' :: (b ++ '.' :: c) ∧
        a ≠ [] ∧ b ≠ [] ∧ c ≠ [] ∧
        (∀ x ∈ a, emailClass x = true) ∧ (∀ x ∈ b, emailClass x = true) ∧
        (∀ x ∈ c, emailClass x = true) := by
  simp only [emailRegexTest, List.any_eq_true, List.mem_flatMap, rxPlus_mem, rxChar_mem,
    List.isEmpty_iff]
  constructor
  · rintro ⟨r5, ⟨r4, ⟨r3, ⟨r2, ⟨r1, ⟨a, ha, hpa, h1⟩, h2⟩, ⟨b, hb, hpb, h3⟩⟩, h4⟩, ⟨c, hc, hpc, h5⟩⟩, rfl⟩
    refine ⟨a, b, c, ?_, ha, hb, hc, hpa, hpb, hpc⟩
    rw [h1, h2, h3, h4, h5]
    simp
  · rintro ⟨a, b, c, h, ha, hb, hc, hpa, hpb, hpc⟩
    exact ⟨[], ⟨c, ⟨'.' :: c, ⟨b ++ '.' :: c, ⟨'@' :: (b ++ '.' :: c), ⟨a, ha, hpa, h⟩, rfl⟩,
      ⟨b, hb, hpb, rfl⟩⟩, rfl⟩, ⟨c, hc, hpc, by simp⟩⟩, rfl⟩

theorem jsTrim_of_whitespace {s : String} (h : ∀ c ∈ s.data, isJsWhitespace c = true) :
    jsTrim s = "" := by
  have : trimStart s.data = [] := by
    simpa [trimStart, List.dropWhile_eq_nil_iff] using h
  simp [jsTrim, this, trimEnd]

theorem jsTrim_empty : jsTrim "" = "" := by decide

theorem jsLength_eq_zero_iff (t : String) : jsLength t = 0 ↔ t = "" := by
  rw [str_eq_empty_iff]
  cases t with
  | mk data =>
    cases data with
    | nil => simp [jsLength]
    | cons c cs =>
      simp only [jsLength, List.map_cons, List.sum_cons, reduceCtorEq, iff_false]
      have : 1 ≤ utf16Units c := by
        unfold utf16Units
        split <;> omega
      omega

theorem jsTrim_eq_empty_iff (s : String) :
    jsTrim s = "" ↔ ∀ c ∈ s.data, isJsWhitespace c = true := by
  constructor
  · intro h
    rw [str_eq_empty_iff] at h
    simp only [jsTrim, trimEnd, List.reverse_eq_nil_iff, List.dropWhile_eq_nil_iff,
      List.mem_reverse] at h
    have hnil : trimStart s.data = [] := by
      cases hS : trimStart s.data with
      | nil => rfl
      | cons a l =>
        have h1 := head_trimStart s.data a (by simp [hS])
        have h2 := h a (by simp [hS])
        rw [h1] at h2
        cases h2
    simpa [trimStart, List.dropWhile_eq_nil_iff] using hnil
  · exact jsTrim_of_whitespace

/-- What `trim` does: the input is white space, then the trimmed string, then
white space, and the trimmed string neither starts nor ends with white space. -/
theorem jsTrim_spec (s : String) :
    ∃ pre post : List Char,
      s.data = pre ++ (jsTrim s).data ++ post ∧
      (∀ c ∈ pre, isJsWhitespace c = true) ∧ (∀ c ∈ post, isJsWhitespace c = true) ∧
      (∀ c ∈ (jsTrim s).data.head?, isJsWhitespace c = false) ∧
      (∀ c ∈ (jsTrim s).data.reverse.head?, isJsWhitespace c = false) := by
  have hsplit : s.data = s.data.takeWhile isJsWhitespace ++ trimStart s.data := by
    simp [trimStart]
  have hrev : trimStart s.data =
      trimEnd (trimStart s.data) ++
        ((trimStart s.data).reverse.takeWhile isJsWhitespace).reverse := by
    unfold trimEnd
    rw [← List.reverse_append, List.takeWhile_append_dropWhile, List.reverse_reverse]
  have hlast : ∀ c ∈ (trimEnd (trimStart s.data)).reverse.head?, isJsWhitespace c = false := by
    simpa [trimEnd, trimStart] using head_trimStart (trimStart s.data).reverse
  refine ⟨s.data.takeWhile isJsWhitespace,
    ((trimStart s.data).reverse.takeWhile isJsWhitespace).reverse, ?_,
    fun c hc => List.mem_takeWhile_imp hc,
    fun c hc => List.mem_takeWhile_imp (List.mem_reverse.mp hc), ?_, hlast⟩
  · show s.data = _ ++ trimEnd (trimStart s.data) ++ _
    rw [List.append_assoc, ← hrev]
    exact hsplit
  · show ∀ c ∈ (trimEnd (trimStart s.data)).head?, isJsWhitespace c = false
    intro c hc
    cases hT : trimEnd (trimStart s.data) with
    | nil => simp [hT] at hc
    | cons a l =>
      rw [hT] at hc hrev
      simp only [List.head?_cons, Option.mem_def, Option.some.injEq] at hc
      subst hc
      exact head_trimStart s.data a (by rw [hrev]; simp)

theorem validateName_cases (s : String) :
    (jsTrim s = "" → validateName s = "Please enter your name") ∧
    (jsLength (jsTrim s) = 1 → validateName s = "Name must be at least 2 characters") ∧
    (2 ≤ jsLength (jsTrim s) → validateName s = "") := by
  have hempty : s = "" → jsTrim s = "" := by
    rintro rfl
    exact jsTrim_empty
  refine ⟨?_, ?_, ?_⟩
  · intro h
    simp [validateName, h]
  · intro h
    have hne : jsTrim s ≠ "" := by
      intro h0
      rw [(jsLength_eq_zero_iff _).mpr h0] at h
      cases h
    have hs : s ≠ "" := fun h0 => hne (hempty h0)
    simp [validateName, hne, hs, h]
  · intro h
    have hne : jsTrim s ≠ "" := by
      intro h0
      rw [(jsLength_eq_zero_iff _).mpr h0] at h
      omega
    have hs : s ≠ "" := fun h0 => hne (hempty h0)
    have : ¬ jsLength (jsTrim s) < 2 := by omega
    simp [validateName, hne, hs, this]

theorem validateEmail_eq_empty_iff_regex (e : String) :
    validateEmail e = "" ↔ emailRegexTest e = true := by
  constructor
  · intro h
    unfold validateEmail at h
    split at h
    · exact absurd h (by decide)
    · split at h
      · exact absurd h (by decide)
      · simpa using ‹¬(!emailRegexTest e) = true›
  · intro h
    obtain ⟨a, b, c, he, ha, -, -, hpa, -, -⟩ := (emailRegexTest_iff e).mp h
    obtain ⟨x, xs, rfl⟩ := List.exists_cons_of_ne_nil ha
    have hx : isJsWhitespace x = false := by
      have := hpa x (by simp)
      simp only [emailClass, Bool.and_eq_true, Bool.not_eq_true'] at this
      exact this.1
    have hne : e ≠ "" := by
      intro h0
      rw [str_eq_empty_iff, he] at h0
      simp at h0
    have htrim : jsTrim e ≠ "" := by
      intro h0
      have := (jsTrim_eq_empty_iff e).mp h0 x (by rw [he]; simp)
      rw [hx] at this
      cases this
    simp [validateEmail, hne, htrim, h]

theorem validateGuests_of_parse (g : String) (hg : g ≠ "") :
    (parseInt10 g = none → validateGuests g = "Please enter a valid number") ∧
    (∀ n, parseInt10 g = some n → n < 1 → validateGuests g = "Minimum 1 guest required") ∧
    (∀ n, parseInt10 g = some n → 10 < n →
      validateGuests g = "Maximum 10 guests allowed. Please contact us for larger parties.") ∧
    (∀ n, parseInt10 g = some n → 1 ≤ n → n ≤ 10 → validateGuests g = "") := by
  refine ⟨?_, ?_, ?_, ?_⟩
  · intro hp
    simp [validateGuests, hg, hp]
  · intro n hp hn
    simp [validateGuests, hg, hp, hn]
  · intro n hp hn
    have h1 : ¬ n < 1 := by omega
    simp [validateGuests, hg, hp, hn, h1]
  · intro n hp h1 h2
    have h1 : ¬ n < 1 := by omega
    have h2 : ¬ 10 < n := by omega
    simp [validateGuests, hg, hp, h1, h2]

/-! ## The validators -/

/-- C1, failing inputs: `validateGuests` returns the empty string for `"10.9"`
and for `"1e5"`, which a number input can deliver, and for `"5abc"` and
`"5.5"`; none of the four is an integer string, and `"1e5"` read as a number
is far above 10. -/
theorem validateGuests_accepts_non_integer_strings :
    (isIntegerString "10.9" = false ∧ parseInt10 "10.9" = some 10 ∧
      validateGuests "10.9" = "") ∧
    (isIntegerString "1e5" = false ∧ parseInt10 "1e5" = some 1 ∧
      validateGuests "1e5" = "") ∧
    (isIntegerString "5abc" = false ∧ validateGuests "5abc" = "") ∧
    (isIntegerString "5.5" = false ∧ validateGuests "5.5" = "") := by
  decide

/-- What `validateGuests` accepts: `validateGuests g` is the empty string
exactly when `g` is optional white space, an optional `+`, a non-empty run of decimal digits whose
value is between 1 and 10, and then any tail that does not start with a digit. -/
theorem validateGuests_accepts_iff_leading_integer (g : String) :
    validateGuests g = "" ↔
      ∃ ws sign digits rest : List Char,
        g.data = ws ++ sign ++ digits ++ rest ∧
        (∀ c ∈ ws, isJsWhitespace c = true) ∧
        (sign = [] ∨ sign = ['+']) ∧
        digits ≠ [] ∧ (∀ c ∈ digits, isDigit c = true) ∧
        (∀ c ∈ rest.head?, isDigit c = false) ∧
        1 ≤ digitsValue digits ∧ digitsValue digits ≤ 10 := by
  rw [validateGuests_eq_empty_iff]
  constructor
  · rintro ⟨n, hp, h1, h10⟩
    obtain ⟨ws, sign, digits, rest, hg, hws, hsign, hne, hds, hrest, hn⟩ :=
      shape_of_parseInt10 hp h1
    exact ⟨ws, sign, digits, rest, hg, hws, hsign, hne, hds, hrest, by omega, by omega⟩
  · rintro ⟨ws, sign, digits, rest, hg, hws, hsign, hne, hds, hrest, h1, h10⟩
    exact ⟨_, parseInt10_of_shape hg hws hsign hne hds hrest, by omega, by omega⟩

/-- C3, as stated, fails: `"a@b."` and `"a@b@c.d"` contain no white space,
have a non-empty local part before an `@` and a `.` after it, yet
`validateEmail` rejects both. -/
theorem validateEmail_rejects_spec_shapes :
    (SpecEmailShape "a@b." ∧ validateEmail "a@b." = "Please enter a valid email address") ∧
    (SpecEmailShape "a@b@c.d" ∧
      validateEmail "a@b@c.d" = "Please enter a valid email address") := by
  refine ⟨⟨⟨by decide, ['a'], ['b', '.'], rfl, by simp, by simp⟩, by decide⟩,
    ⟨⟨by decide, ['a'], ['b', '@', 'c', '.', 'd'], rfl, by simp, by simp⟩, by decide⟩⟩

/-- C3, amended: `validateEmail e` is the empty string exactly when `e` is
`local@domain.tld` with all three parts non-empty and free of white space and
of `@`; the inputs of the tests behave as the tests say. -/
theorem validateEmail_accepts_iff (e : String) :
    (validateEmail e = "" ↔
      ∃ a b c : List Char, e.data = a ++ '@' :: (b ++ '.' :: c) ∧
        a ≠ [] ∧ b ≠ [] ∧ c ≠ [] ∧
        ∀ x ∈ a ++ b ++ c, isJsWhitespace x = false ∧ x ≠ '@') ∧
    validateEmail "invalid-email" ≠ "" ∧ validateEmail "invalid@" ≠ "" ∧
    validateEmail "@invalid.com" ≠ "" ∧ validateEmail "test@example.com" = "" := by
  refine ⟨?_, by decide, by decide, by decide, by decide⟩
  rw [validateEmail_eq_empty_iff_regex, emailRegexTest_iff]
  have hcls : ∀ x : Char, emailClass x = true ↔ (isJsWhitespace x = false ∧ x ≠ '@') := by
    intro x
    simp [emailClass]
  constructor
  · rintro ⟨a, b, c, he, ha, hb, hc, hpa, hpb, hpc⟩
    refine ⟨a, b, c, he, ha, hb, hc, ?_⟩
    intro x hx
    simp only [List.mem_append] at hx
    rcases hx with (hx | hx) | hx
    · exact (hcls x).mp (hpa x hx)
    · exact (hcls x).mp (hpb x hx)
    · exact (hcls x).mp (hpc x hx)
  · rintro ⟨a, b, c, he, ha, hb, hc, hall⟩
    exact ⟨a, b, c, he, ha, hb, hc,
      fun x hx => (hcls x).mpr (hall x (by simp [hx])),
      fun x hx => (hcls x).mpr (hall x (by simp [hx])),
      fun x hx => (hcls x).mpr (hall x (by simp [hx]))⟩

/-- C4: `validateName s` is the empty string exactly when the trimmed input
has length at least 2; it is `Please enter your name` when the trimmed input
is empty and `Name must be at least 2 characters` when it has length 1. -/
theorem validateName_by_trimmed_length (s : String) :
    (validateName s = "" ↔ 2 ≤ jsLength (jsTrim s)) ∧
    (jsLength (jsTrim s) = 0 → validateName s = "Please enter your name") ∧
    (jsLength (jsTrim s) = 1 → validateName s = "Name must be at least 2 characters") := by
  obtain ⟨h0, h1, h2⟩ := validateName_cases s
  refine ⟨⟨?_, h2⟩, fun h => h0 ((jsLength_eq_zero_iff _).mp h), h1⟩
  intro h
  by_contra hlt
  have hcases : jsLength (jsTrim s) = 0 ∨ jsLength (jsTrim s) = 1 := by omega
  rcases hcases with hz | ho
  · rw [h0 ((jsLength_eq_zero_iff _).mp hz)] at h
    exact absurd h (by decide)
  · rw [h1 ho] at h
    exact absurd h (by decide)

/-- Witness for C4 at the one-letter name of the tests, padded with blanks. -/
theorem validateName_by_trimmed_length_witness :
    jsLength (jsTrim " A ") = 1 ∧ validateName " A " = "Name must be at least 2 characters" :=
  ⟨by decide, (validateName_by_trimmed_length " A ").2.2 (by decide)⟩

/-- C5: on a non-empty input the message of `validateGuests` names the
reason: no numeric parse, a number below 1, or a number above 10; the three
messages are non-empty and pairwise distinct, and the inputs of the tests get
the out-of-range messages. -/
theorem validateGuests_message_names_reason (g : String) (hg : g ≠ "") :
    (validateGuests g = "Please enter a valid number" ↔ parseInt10 g = none) ∧
    (validateGuests g = "Minimum 1 guest required" ↔ ∃ n, parseInt10 g = some n ∧ n < 1) ∧
    (validateGuests g = "Maximum 10 guests allowed. Please contact us for larger parties." ↔
      ∃ n, parseInt10 g = some n ∧ 10 < n) ∧
    (validateGuests "abc" = "Please enter a valid number" ∧
      validateGuests "0" = "Minimum 1 guest required" ∧
      validateGuests "-1" = "Minimum 1 guest required" ∧
      validateGuests "11" = "Maximum 10 guests allowed. Please contact us for larger parties." ∧
      validateGuests "15" =
        "Maximum 10 guests allowed. Please contact us for larger parties.") ∧
    ("Please enter a valid number" ≠ "" ∧ "Minimum 1 guest required" ≠ "" ∧
      "Maximum 10 guests allowed. Please contact us for larger parties." ≠ "" ∧
      "Please enter a valid number" ≠ "Minimum 1 guest required" ∧
      "Please enter a valid number" ≠
        "Maximum 10 guests allowed. Please contact us for larger parties." ∧
      "Minimum 1 guest required" ≠
        "Maximum 10 guests allowed. Please contact us for larger parties.") := by
  obtain ⟨hN, hL, hH, hO⟩ := validateGuests_of_parse g hg
  have key : parseInt10 g = none ∨ (∃ n, parseInt10 g = some n ∧ n < 1) ∨
      (∃ n, parseInt10 g = some n ∧ 10 < n) ∨
      (∃ n, parseInt10 g = some n ∧ 1 ≤ n ∧ n ≤ 10) := by
    cases hp : parseInt10 g with
    | none => exact Or.inl rfl
    | some n =>
      rcases lt_or_le n 1 with h1 | h1
      · exact Or.inr (Or.inl ⟨n, rfl, h1⟩)
      · rcases lt_or_le 10 n with h2 | h2
        · exact Or.inr (Or.inr (Or.inl ⟨n, rfl, h2⟩))
        · exact Or.inr (Or.inr (Or.inr ⟨n, rfl, h1, h2⟩))
  refine ⟨⟨fun h => ?_, hN⟩, ⟨fun h => ?_, fun ⟨n, hp, hn⟩ => hL n hp hn⟩,
    ⟨fun h => ?_, fun ⟨n, hp, hn⟩ => hH n hp hn⟩, by decide, by decide⟩
  · rcases key with hp | ⟨n, hp, hn⟩ | ⟨n, hp, hn⟩ | ⟨n, hp, h1, h2⟩
    · exact hp
    · rw [hL n hp hn] at h
      exact absurd h (by decide)
    · rw [hH n hp hn] at h
      exact absurd h (by decide)
    · rw [hO n hp h1 h2] at h
      exact absurd h (by decide)
  · rcases key with hp | ⟨n, hp, hn⟩ | ⟨n, hp, hn⟩ | ⟨n, hp, h1, h2⟩
    · rw [hN hp] at h
      exact absurd h (by decide)
    · exact ⟨n, hp, hn⟩
    · rw [hH n hp hn] at h
      exact absurd h (by decide)
    · rw [hO n hp h1 h2] at h
      exact absurd h (by decide)
  · rcases key with hp | ⟨n, hp, hn⟩ | ⟨n, hp, hn⟩ | ⟨n, hp, h1, h2⟩
    · rw [hN hp] at h
      exact absurd h (by decide)
    · rw [hL n hp hn] at h
      exact absurd h (by decide)
    · exact ⟨n, hp, hn⟩
    · rw [hO n hp h1 h2] at h
      exact absurd h (by decide)

/-- Witness for C5 at the party of fifteen used in the tests. -/
theorem validateGuests_message_names_reason_witness :
    ("15" : String) ≠ "" ∧
    (validateGuests "15" = "Maximum 10 guests allowed. Please contact us for larger parties." ↔
      ∃ n, parseInt10 "15" = some n ∧ 10 < n) :=
  ⟨by decide, (validateGuests_message_names_reason "15" (by decide)).2.2.1⟩

/-- C6: on the empty string every validator returns its field's empty-input
message, and `validateName` and `validateEmail` return theirs on every string
made of white space only. -/
theorem validators_reject_empty_input (clock : Clock) :
    validateDate clock "" = "Please select a date" ∧
    validateTime "" = "Please select a time" ∧
    validateGuests "" = "Please enter number of guests" ∧
    validateName "" = "Please enter your name" ∧
    validateEmail "" = "Please enter your email" ∧
    (∀ s : String, (∀ c ∈ s.data, isJsWhitespace c = true) →
      validateName s = "Please enter your name" ∧
      validateEmail s = "Please enter your email") := by
  refine ⟨by simp [validateDate], by decide, by decide, by decide, by decide, ?_⟩
  intro s hs
  have h := jsTrim_of_whitespace hs
  simp [validateName, validateEmail, h]

/-- Witness for C6 at a string of a blank, a tab and a blank. -/
theorem validators_reject_empty_input_witness :
    (∀ c ∈ (" \t " : String).data, isJsWhitespace c = true) ∧
    validateName " \t " = "Please enter your name" ∧
    validateEmail " \t " = "Please enter your email" :=
  ⟨by decide, (validators_reject_empty_input (isoClock 0 0)).2.2.2.2.2 " \t " (by decide)⟩

/-! ## The date validator and the time zone -/

theorem localMidnight_eq (clock : Clock) :
    localMidnight clock = localDay clock * msPerDay - clock.tza := rfl

theorem validateDate_of_parse (clock : Clock) (d : String) (t : Int) (hd : d ≠ "")
    (hp : clock.parse d = some t) :
    validateDate clock d =
      if t < localMidnight clock then "Please select a future date" else "" := by
  simp [validateDate, hd, hp, dateLt]

/-- A calendar day before the local day of `now` is rejected in every zone
less than a day ahead of UTC. -/
theorem validateDate_past_day (clock : Clock) (d : String) (day : Int) (hd : d ≠ "")
    (hp : clock.parse d = some (day * msPerDay)) (hz : clock.tza < msPerDay)
    (hlt : day < localDay clock) :
    validateDate clock d = "Please select a future date" := by
  rw [validateDate_of_parse clock d _ hd hp, localMidnight_eq]
  have : day * msPerDay < localDay clock * msPerDay - clock.tza := by
    simp only [msPerDay] at hz ⊢
    omega
  simp [this]

/-- A calendar day after the local day of `now` is accepted in every zone
less than a day behind UTC. -/
theorem validateDate_later_day (clock : Clock) (d : String) (day : Int) (hd : d ≠ "")
    (hp : clock.parse d = some (day * msPerDay)) (hz : -msPerDay < clock.tza)
    (hlt : localDay clock < day) :
    validateDate clock d = "" := by
  rw [validateDate_of_parse clock d _ hd hp, localMidnight_eq]
  have : ¬ day * msPerDay < localDay clock * msPerDay - clock.tza := by
    simp only [msPerDay] at hz ⊢
    omega
  simp [this]

/-- The local day of `now` itself is accepted exactly in the zones that are
not behind UTC. -/
theorem validateDate_today (clock : Clock) (d : String) (hd : d ≠ "")
    (hp : clock.parse d = some (localDay clock * msPerDay)) :
    validateDate clock d = "" ↔ 0 ≤ clock.tza := by
  rw [validateDate_of_parse clock d _ hd hp, localMidnight_eq]
  by_cases h : 0 ≤ clock.tza
  · have : ¬ localDay clock * msPerDay < localDay clock * msPerDay - clock.tza := by omega
    simp [this, h]
  · have : localDay clock * msPerDay < localDay clock * msPerDay - clock.tza := by omega
    simp only [this, if_true, h, iff_false]
    decide

/-- C2, failing input: in a zone five hours behind UTC, at 10:00 local time
on 2024-03-10, the string `2024-03-10` is today's wall-clock date, and
`validateDate` rejects it with `Please select a future date`. -/
theorem validateDate_rejects_today_west_of_utc :
    isoDay "2024-03-10" = some (localDay westClock) ∧
    validateDate westClock "2024-03-10" = "Please select a future date" := by
  decide

/-! ## Form validity -/

theorem FormData.get_set (fd : FormData) (k f : Field) (v : String) :
    (fd.set k v).get f = if k = f then v else fd.get f := by
  cases k <;> cases f <;> simp [FormData.set, FormData.get]

/-- C7: `isFormValid` is true exactly when the five required draft fields are
non-empty and every entry of `errors` is the empty string; it does not read
`touched`; emptying a required field makes it false; it is false initially. -/
theorem isFormValid_iff (s : State) :
    (isFormValid s = true ↔
      (s.formData.date ≠ "" ∧ s.formData.time ≠ "" ∧ s.formData.guests ≠ "" ∧
        s.formData.name ≠ "" ∧ s.formData.email ≠ "") ∧
      ∀ entry ∈ s.errors, entry.2 = "") ∧
    (∀ touched : JsObject Bool, isFormValid { s with touched := touched } = isFormValid s) ∧
    (∀ f ∈ requiredFields,
      isFormValid { s with formData := s.formData.set f "" } = false) ∧
    isFormValid initialState = false := by
  refine ⟨?_, fun _ => rfl, ?_, by decide⟩
  · simp only [isFormValid, Bool.and_eq_true, decide_eq_true_eq, List.all_eq_true,
      List.mem_map, forall_exists_index, and_imp]
    constructor
    · rintro ⟨⟨⟨⟨⟨h1, h2⟩, h3⟩, h4⟩, h5⟩, h6⟩
      exact ⟨⟨h1, h2, h3, h4, h5⟩, fun entry he => h6 entry.2 entry he rfl⟩
    · rintro ⟨⟨h1, h2, h3, h4, h5⟩, h6⟩
      exact ⟨⟨⟨⟨⟨h1, h2⟩, h3⟩, h4⟩, h5⟩, fun e entry he heq => heq ▸ h6 entry he⟩
  · intro f hf
    simp only [requiredFields, List.mem_cons, List.mem_singleton, List.not_mem_nil,
      or_false] at hf
    rcases hf with rfl | rfl | rfl | rfl | rfl <;> simp [isFormValid, FormData.set]

/-- Witness for C7 on the fresh form: emptying its date keeps validity false. -/
theorem isFormValid_iff_witness :
    Field.date ∈ requiredFields ∧
    isFormValid { initialState with formData := initialState.formData.set Field.date "" } =
      false :=
  ⟨by decide, (isFormValid_iff initialState).2.2.1 Field.date (by decide)⟩

/-! ## Submission -/

theorem validateForm_ok_iff (clock : Clock) (fd : FormData) :
    (validateForm clock fd).2 = true ↔
      validateDate clock fd.date = "" ∧ validateTime fd.time = "" ∧
      validateGuests fd.guests = "" ∧ validateName fd.name = "" ∧
      validateEmail fd.email = "" := by
  simp [validateForm]

theorem handleSubmit_booking (clock : Clock) (s : State) :
    (handleSubmit clock s).2.booking =
      if (validateForm clock s.formData).2 = true then some s.formData else none := by
  unfold handleSubmit
  by_cases h : (validateForm clock s.formData).2 = true <;> simp [h]

theorem handleSubmit_focus (clock : Clock) (s : State) :
    (handleSubmit clock s).2.focus =
      if (validateForm clock s.formData).2 = true then none else firstErrorField s.errors := by
  unfold handleSubmit
  by_cases h : (validateForm clock s.formData).2 = true <;> simp [h]

theorem handleSubmit_state (clock : Clock) (s : State) :
    (handleSubmit clock s).1 =
      { s with
        touched := [(Field.date, true), (Field.time, true), (Field.guests, true),
          (Field.name, true), (Field.email, true)]
        errors := (validateForm clock s.formData).1 } := by
  unfold handleSubmit
  by_cases h : (validateForm clock s.formData).2 = true <;> simp [h]

theorem step_occasion (clock : Clock) (s : State) (ev : Event)
    (h : ∀ v, ev ≠ Event.change Field.occasion v) :
    (step clock s ev).formData.occasion = s.formData.occasion := by
  cases ev with
  | change name value =>
    have hname : name ≠ Field.occasion := by
      rintro rfl
      exact h value rfl
    simp only [step, handleChange]
    split <;> cases name <;> simp_all [FormData.set]
  | blur name => rfl
  | submit =>
    simp only [step, handleSubmit_state]

theorem run_occasion (clock : Clock) (events : List Event) :
    ∀ s : State, (∀ v, Event.change Field.occasion v ∉ events) →
      (run clock s events).formData.occasion = s.formData.occasion := by
  induction events with
  | nil => intro s _; rfl
  | cons ev evs ih =>
    intro s h
    have h1 : ∀ v, ev ≠ Event.change Field.occasion v := by
      intro v hv
      exact h v (by simp [hv])
    have h2 : ∀ v, Event.change Field.occasion v ∉ evs := by
      intro v hv
      exact h v (by simp [hv])
    have := ih (step clock s ev) h2
    simp only [run, List.foldl_cons] at this ⊢
    rw [this, step_occasion clock s ev h1]

/-- C8: `handleSubmit` passes a booking to the confirmation page exactly when
all five validators accept the current draft, whatever `errors` and `touched`
were; the booking is the draft itself, whose occasion is `birthday` unless a
change event set it; with or without a booking the draft is left as it was. -/
theorem handleSubmit_emits_iff_all_valid (clock : Clock) (s : State) :
    ((handleSubmit clock s).2.booking = some s.formData ↔
      validateDate clock s.formData.date = "" ∧ validateTime s.formData.time = "" ∧
      validateGuests s.formData.guests = "" ∧ validateName s.formData.name = "" ∧
      validateEmail s.formData.email = "") ∧
    ((handleSubmit clock s).2.booking = none ↔
      ¬ (validateDate clock s.formData.date = "" ∧ validateTime s.formData.time = "" ∧
        validateGuests s.formData.guests = "" ∧ validateName s.formData.name = "" ∧
        validateEmail s.formData.email = "")) ∧
    (∀ (errors : JsObject String) (touched : JsObject Bool),
      (handleSubmit clock { s with errors := errors, touched := touched }).2.booking =
        (handleSubmit clock s).2.booking) ∧
    (handleSubmit clock s).1.formData = s.formData ∧
    (∀ events : List Event, (∀ v, Event.change Field.occasion v ∉ events) →
      (run clock initialState events).formData.occasion = "birthday") := by
  refine ⟨?_, ?_, ?_, ?_, ?_⟩
  · rw [handleSubmit_booking, ← validateForm_ok_iff]
    by_cases h : (validateForm clock s.formData).2 = true <;> simp [h]
  · rw [handleSubmit_booking, ← validateForm_ok_iff]
    by_cases h : (validateForm clock s.formData).2 = true <;> simp [h]
  · intro errors touched
    rw [handleSubmit_booking, handleSubmit_booking]
  · rw [handleSubmit_state]
  · intro events h
    exact run_occasion clock events initialState h

/-- Witness for C8: after the name was typed and the date field left, the
occasion is still the default. -/
theorem handleSubmit_emits_iff_all_valid_witness :
    (∀ v, Event.change Field.occasion v ∉
      [Event.change Field.name "John Doe", Event.blur Field.date]) ∧
    (run (isoClock 0 0) initialState
      [Event.change Field.name "John Doe", Event.blur Field.date]).formData.occasion =
        "birthday" :=
  ⟨by simp, (handleSubmit_emits_iff_all_valid (isoClock 0 0) initialState).2.2.2.2
    [Event.change Field.name "John Doe", Event.blur Field.date] (by simp)⟩

/-- C9, failing input: submitting the fresh form fails validation, the first
invalid field in the fixed order is `date`, and no field receives focus,
because the search runs over the `errors` of before the submission; and after
the empty email field and then the empty date field were left, a submission
focuses `email`, the first key inserted, although `date` has an error. -/
theorem handleSubmit_focus_uses_stale_errors (clock : Clock) :
    ((handleSubmit clock initialState).2.booking = none ∧
      specFirstInvalidField clock initialState.formData = some Field.date ∧
      (handleSubmit clock initialState).2.focus = none) ∧
    ((handleSubmit clock
        (run clock initialState [Event.blur Field.email, Event.blur Field.date])).2.booking =
        none ∧
      specFirstInvalidField clock
        (run clock initialState [Event.blur Field.email, Event.blur Field.date]).formData =
        some Field.date ∧
      (handleSubmit clock
        (run clock initialState [Event.blur Field.email, Event.blur Field.date])).2.focus =
        some Field.email) := by
  have hd : validateDate clock "" = "Please select a date" := by simp [validateDate]
  have he : validateEmail "" = "Please enter your email" := by decide
  have hform : (run clock initialState [Event.blur Field.email, Event.blur Field.date]).formData
      = initialState.formData := rfl
  have herr : (run clock initialState [Event.blur Field.email, Event.blur Field.date]).errors
      = [(Field.email, "Please enter your email"), (Field.date, "Please select a date")] := by
    simp [run, step, handleBlur, validateField, fieldError, initialState, FormData.get,
      JsObject.assign, hd, he]
  have hspec : specFirstInvalidField clock initialState.formData = some Field.date := by
    simp [specFirstInvalidField, fieldError, initialState, FormData.get, hd]
  have hbad : (validateForm clock initialState.formData).2 = false := by
    simp [validateForm, initialState, hd]
  refine ⟨⟨?_, hspec, ?_⟩, ?_, ?_, ?_⟩
  · rw [handleSubmit_booking, hbad]
    simp
  · rw [handleSubmit_focus, hbad]
    simp [firstErrorField, initialState]
  · rw [handleSubmit_booking, hform, hbad]
    simp
  · rw [hform]
    exact hspec
  · rw [handleSubmit_focus, hform, hbad, herr]
    decide

/-! ## The errors of touched fields -/

theorem JsObject.get_assign {α : Type} (o : JsObject α) (k f : Field) (v : α) :
    JsObject.get (JsObject.assign o k v) f = if k = f then some v else JsObject.get o f := by
  induction o with
  | nil => simp [JsObject.assign, JsObject.get]
  | cons p rest ih =>
    obtain ⟨k1, v1⟩ := p
    by_cases h1 : k1 = k
    · subst h1
      by_cases h2 : k1 = f <;> simp [JsObject.assign, JsObject.get, h2]
    · by_cases h2 : k1 = f
      · subst h2
        have h3 : ¬ k = k1 := fun h => h1 h.symm
        simp [JsObject.assign, JsObject.get, h1, h3]
      · simp [JsObject.assign, JsObject.get, h1, h2, ih]

theorem isTouched_assign (touched : JsObject Bool) (k f : Field) :
    isTouched (JsObject.assign touched k true) f = if k = f then true else isTouched touched f := by
  unfold isTouched
  rw [JsObject.get_assign]
  split <;> rfl

theorem isTouched_submit (clock : Clock) (s : State) (f : Field) :
    isTouched (handleSubmit clock s).1.touched f = decide (f ∈ requiredFields) := by
  rw [handleSubmit_state]
  cases f <;> simp [isTouched, JsObject.get, requiredFields]

theorem validateForm_get (clock : Clock) (fd : FormData) (f : Field) (hf : f ∈ requiredFields) :
    JsObject.get (validateForm clock fd).1 f = some (fieldError clock f (fd.get f)) := by
  simp only [requiredFields, List.mem_cons, List.mem_singleton, List.not_mem_nil,
    or_false] at hf
  rcases hf with rfl | rfl | rfl | rfl | rfl <;>
    simp [validateForm, JsObject.get, fieldError, FormData.get]

theorem errorsFollowDraft_initial (clock : Clock) : ErrorsFollowDraft clock initialState := by
  intro f h
  simp [isTouched, initialState, JsObject.get] at h

theorem errorsFollowDraft_step (clock : Clock) (s : State) (ev : Event)
    (h : ErrorsFollowDraft clock s) : ErrorsFollowDraft clock (step clock s ev) := by
  intro f hf
  cases ev with
  | change name value =>
    simp only [step, handleChange] at hf ⊢
    by_cases ht : isTouched s.touched name = true
    · simp only [ht, if_true, validateField] at hf ⊢
      rw [JsObject.get_assign, FormData.get_set]
      by_cases hk : name = f
      · subst hk
        simp
      · simp only [hk, if_false]
        exact h f hf
    · simp only [ht] at hf ⊢
      simp only [Bool.false_eq_true, if_false] at hf ⊢
      have hk : name ≠ f := by
        rintro rfl
        exact ht hf
      rw [FormData.get_set]
      simp only [hk, if_false]
      exact h f hf
  | blur name =>
    simp only [step, handleBlur, validateField] at hf ⊢
    rw [JsObject.get_assign]
    by_cases hk : name = f
    · subst hk
      simp
    · rw [isTouched_assign] at hf
      simp only [hk, if_false] at hf ⊢
      exact h f hf
  | submit =>
    simp only [step] at hf ⊢
    rw [isTouched_submit] at hf
    rw [handleSubmit_state]
    exact validateForm_get clock s.formData f (by simpa using hf)

theorem errorsFollowDraft_run (clock : Clock) (events : List Event) :
    ∀ s : State, ErrorsFollowDraft clock s → ErrorsFollowDraft clock (run clock s events) := by
  induction events with
  | nil => intro s h; exact h
  | cons ev evs ih =>
    intro s h
    exact ih (step clock s ev) (errorsFollowDraft_step clock s ev h)

theorem isTouched_step_required (clock : Clock) (s : State) (ev : Event) (f : Field)
    (hf : f ∈ requiredFields) (h : isTouched s.touched f = true) :
    isTouched (step clock s ev).touched f = true := by
  cases ev with
  | change name value =>
    simp only [step, handleChange]
    split <;> exact h
  | blur name =>
    simp only [step, handleBlur]
    rw [isTouched_assign]
    split
    · rfl
    · exact h
  | submit =>
    simp only [step]
    rw [isTouched_submit]
    simpa using hf

theorem isTouched_run_required (clock : Clock) (f : Field) (hf : f ∈ requiredFields)
    (events : List Event) :
    ∀ s : State,
      (isTouched s.touched f = true ∨ Event.blur f ∈ events ∨ Event.submit ∈ events) →
      isTouched (run clock s events).touched f = true := by
  induction events with
  | nil =>
    intro s h
    simpa using h
  | cons ev evs ih =>
    intro s h
    apply ih (step clock s ev)
    rcases h with h | h | h
    · exact Or.inl (isTouched_step_required clock s ev f hf h)
    · rcases List.mem_cons.mp h with h | h
      · subst h
        left
        simp only [step, handleBlur]
        rw [isTouched_assign]
        simp
      · exact Or.inr (Or.inl h)
    · rcases List.mem_cons.mp h with h | h
      · subst h
        left
        simp only [step]
        rw [isTouched_submit]
        simpa using hf
      · exact Or.inr (Or.inr h)

/-- C10: with a fixed clock, in every state reached from the initial state by
change, blur and submit events, the `errors` entry of every touched field, and
so of every required field that was blurred or submitted at least once, is
that field's validator applied to the current draft value; a blur sets the
entry to the validator's message whatever `touched` was, and blurring the
empty date field gives `Please select a date`. -/
theorem errors_follow_validators (clock : Clock) (events : List Event) (f : Field) :
    (isTouched (run clock initialState events).touched f = true →
      JsObject.get (run clock initialState events).errors f =
        some (fieldError clock f ((run clock initialState events).formData.get f))) ∧
    (f ∈ requiredFields → (Event.blur f ∈ events ∨ Event.submit ∈ events) →
      JsObject.get (run clock initialState events).errors f =
        some (fieldError clock f ((run clock initialState events).formData.get f))) ∧
    (∀ s : State, JsObject.get (handleBlur clock s f).errors f =
      some (fieldError clock f (s.formData.get f))) ∧
    JsObject.get (handleBlur clock initialState Field.date).errors Field.date =
      some "Please select a date" := by
  have hinv := errorsFollowDraft_run clock events initialState (errorsFollowDraft_initial clock)
  refine ⟨hinv f, ?_, ?_, ?_⟩
  · intro hf hev
    exact hinv f (isTouched_run_required clock f hf events initialState (Or.inr hev))
  · intro s
    simp only [handleBlur, validateField]
    rw [JsObject.get_assign]
    simp
  · simp [handleBlur, validateField, JsObject.get_assign, fieldError, initialState,
      FormData.get, validateDate]

/-- Witness for C10: fifteen guests typed and the field left, as in the tests. -/
theorem errors_follow_validators_witness :
    Field.guests ∈ requiredFields ∧
    (Event.blur Field.guests ∈ [Event.change Field.guests "15", Event.blur Field.guests] ∨
      Event.submit ∈ [Event.change Field.guests "15", Event.blur Field.guests]) ∧
    JsObject.get (run (isoClock 0 0) initialState
      [Event.change Field.guests "15", Event.blur Field.guests]).errors Field.guests =
      some (fieldError (isoClock 0 0) Field.guests
        ((run (isoClock 0 0) initialState
          [Event.change Field.guests "15", Event.blur Field.guests]).formData.get
            Field.guests)) :=
  ⟨by decide, Or.inl (by simp),
    (errors_follow_validators (isoClock 0 0)
      [Event.change Field.guests "15", Event.blur Field.guests] Field.guests).2.1
      (by decide) (Or.inl (by simp))⟩

/-! ## The touched flags -/

theorem isTouched_step_not_submit (clock : Clock) (s : State) (ev : Event) (f : Field)
    (hev : ev ≠ Event.submit) (h : isTouched s.touched f = true) :
    isTouched (step clock s ev).touched f = true := by
  cases ev with
  | change name value =>
    simp only [step, handleChange]
    split <;> exact h
  | blur name =>
    simp only [step, handleBlur]
    rw [isTouched_assign]
    split
    · rfl
    · exact h
  | submit => exact absurd rfl hev

theorem touched_required_step (clock : Clock) (s : State) (ev : Event)
    (hev : ∀ f, ev = Event.blur f → f ∈ requiredFields)
    (h : ∀ f, isTouched s.touched f = true → f ∈ requiredFields) :
    ∀ f, isTouched (step clock s ev).touched f = true → f ∈ requiredFields := by
  intro f hf
  cases ev with
  | change name value =>
    simp only [step, handleChange] at hf
    split at hf <;> exact h f hf
  | blur name =>
    simp only [step, handleBlur] at hf
    rw [isTouched_assign] at hf
    by_cases hk : name = f
    · subst hk
      exact hev name rfl
    · simp only [hk, if_false] at hf
      exact h f hf
  | submit =>
    simp only [step] at hf
    rw [isTouched_submit] at hf
    simpa using hf

/-- When only the five required inputs are ever left, as in the form's markup
where only they have a blur handler, only required fields are ever touched. -/
theorem touched_required_run (clock : Clock) (events : List Event)
    (hev : ∀ f, Event.blur f ∈ events → f ∈ requiredFields) :
    ∀ s : State, (∀ f, isTouched s.touched f = true → f ∈ requiredFields) →
      ∀ f, isTouched (run clock s events).touched f = true → f ∈ requiredFields := by
  induction events with
  | nil => intro s h; exact h
  | cons ev evs ih =>
    intro s h
    exact ih (fun f hf => hev f (by simp [hf])) (step clock s ev)
      (touched_required_step clock s ev (fun f hf => hev f (by simp [hf])) h)

/-- The handlers called directly, outside the form: had the occasion field
been touched by a blur, a submission would leave it untouched again. -/
theorem handleSubmit_untouches_occasion :
    isTouched (handleBlur (isoClock 0 0) initialState Field.occasion).touched Field.occasion =
      true ∧
    isTouched (step (isoClock 0 0) (handleBlur (isoClock 0 0) initialState Field.occasion)
      Event.submit).touched Field.occasion = false := by
  constructor
  · decide
  · simp only [step]
    rw [isTouched_submit]
    decide

/-- The handlers on an arbitrary state: a touched field stays touched after
every event when it is one of the five required fields, and after every change
or blur event whatever the field; after a submission exactly the five required
fields are touched. -/
theorem touched_one_way (clock : Clock) (s : State) (ev : Event) (f : Field)
    (h : isTouched s.touched f = true) :
    ((f ∈ requiredFields ∨ ev ≠ Event.submit) →
      isTouched (step clock s ev).touched f = true) ∧
    (∀ g : Field, isTouched (step clock s Event.submit).touched g = true ↔
      g ∈ requiredFields) := by
  constructor
  · rintro (hf | hev)
    · exact isTouched_step_required clock s ev f hf h
    · exact isTouched_step_not_submit clock s ev f hev h
  · intro g
    simp only [step]
    rw [isTouched_submit]
    simp

theorem blurFields_eq : blurFields = requiredFields := rfl

/-- C11: in every state the form reaches from its initial state, where blur
events come only from the inputs that have a blur handler, a field that is
touched is still touched after any further event, be it a change or a blur on
any field or a submission, and after any further sequence of events; the
touched fields are always among the five that a submission marks, so the
mass-touch of a submission resets none of them. -/
theorem touched_never_reset (clock : Clock) (events : List Event)
    (hev : ∀ g, Event.blur g ∈ events → g ∈ blurFields) (ev : Event) (f : Field)
    (h : isTouched (run clock initialState events).touched f = true) :
    isTouched (step clock (run clock initialState events) ev).touched f = true ∧
    (∀ later : List Event,
      isTouched (run clock (run clock initialState events) later).touched f = true) ∧
    f ∈ requiredFields := by
  have hreq : f ∈ requiredFields :=
    touched_required_run clock events (fun g hg => blurFields_eq ▸ hev g hg) initialState
      (fun g hg => by simp [isTouched, initialState, JsObject.get] at hg) f h
  exact ⟨isTouched_step_required clock _ ev f hreq h,
    fun later => isTouched_run_required clock f hreq later _ (Or.inl h), hreq⟩

/-- Witness for C11: the date field, touched by a blur, is still touched
after a submission. -/
theorem touched_never_reset_witness :
    (∀ g, Event.blur g ∈ [Event.blur Field.date] → g ∈ blurFields) ∧
    isTouched (run (isoClock 0 0) initialState [Event.blur Field.date]).touched Field.date =
      true ∧
    isTouched (step (isoClock 0 0) (run (isoClock 0 0) initialState [Event.blur Field.date])
      Event.submit).touched Field.date = true :=
  ⟨fun g hg => by
      simp only [List.mem_singleton, Event.blur.injEq] at hg
      subst hg
      decide,
    by decide,
    (touched_never_reset (isoClock 0 0) [Event.blur Field.date]
      (fun g hg => by
        simp only [List.mem_singleton, Event.blur.injEq] at hg
        subst hg
        decide)
      Event.submit Field.date (by decide)).1⟩

/-! ## The time-slot store -/

/-- C12: the store starts from the canonical list of six slots; an
`UPDATE_TIMES` action returns that list whatever the date and the prior
state; an action of any other type returns the prior state. -/
theorem timesReducer_canonical :
    initialAvailableTimes = ["17:00", "18:00", "19:00", "20:00", "21:00", "22:00"] ∧
    (∀ (state : List String) (D : String),
      timesReducer state { type := "UPDATE_TIMES", date := D } =
        ["17:00", "18:00", "19:00", "20:00", "21:00", "22:00"]) ∧
    (∀ (state : List String) (action : Action), action.type ≠ "UPDATE_TIMES" →
      timesReducer state action = state) := by
  refine ⟨rfl, ?_, ?_⟩
  · intro state D
    simp [timesReducer, initializeTimes]
  · intro state action h
    simp [timesReducer, h]

/-- Witness for C12: an action of another type leaves a two-slot state as it is. -/
theorem timesReducer_canonical_witness :
    ({ type := "RESET", date := "" } : Action).type ≠ "UPDATE_TIMES" ∧
    timesReducer ["17:00", "18:00"] { type := "RESET", date := "" } = ["17:00", "18:00"] :=
  ⟨by decide, timesReducer_canonical.2.2 ["17:00", "18:00"] { type := "RESET", date := "" }
    (by decide)⟩

/-! ## Validity shown by the form against validity at submission -/

theorem run_fillWithFifteenGuests (clock : Clock) (d : String) :
    run clock initialState (fillWithFifteenGuests d) =
      { formData :=
          { date := d, time := "18:00", guests := "15", occasion := "birthday",
            name := "John Doe", email := "test@example.com", specialRequests := "" }
        errors := []
        touched := [] } := by
  simp [run, fillWithFifteenGuests, step, handleChange, isTouched, JsObject.get, initialState,
    FormData.set]

/-- C13: after change events alone have filled the form with an accepted date,
18:00, fifteen guests, a name and an e-mail address, `errors` is still empty
and `isFormValid` is true, yet `validateGuests` rejects the draft, so
`handleSubmit` passes no booking on and records the guests error. -/
theorem isFormValid_true_yet_submit_fails (clock : Clock) (d : String)
    (hd : validateDate clock d = "") :
    (run clock initialState (fillWithFifteenGuests d)).errors = [] ∧
    isFormValid (run clock initialState (fillWithFifteenGuests d)) = true ∧
    validateGuests (run clock initialState (fillWithFifteenGuests d)).formData.guests =
      "Maximum 10 guests allowed. Please contact us for larger parties." ∧
    (handleSubmit clock (run clock initialState (fillWithFifteenGuests d))).2.booking = none ∧
    (handleSubmit clock (run clock initialState (fillWithFifteenGuests d))).1.errors =
      [(Field.date, ""), (Field.time, ""),
       (Field.guests, "Maximum 10 guests allowed. Please contact us for larger parties."),
       (Field.name, ""), (Field.email, "")] := by
  have hne : d ≠ "" := by
    rintro rfl
    simp [validateDate] at hd
  have hg : validateGuests "15" =
      "Maximum 10 guests allowed. Please contact us for larger parties." := by decide
  have ht : validateTime "18:00" = "" := by decide
  have hn : validateName "John Doe" = "" := by decide
  have he : validateEmail "test@example.com" = "" := by decide
  rw [run_fillWithFifteenGuests]
  refine ⟨rfl, ?_, hg, ?_, ?_⟩
  · simp [isFormValid, hne]
  · rw [handleSubmit_booking]
    have : (validateForm clock
        { date := d, time := "18:00", guests := "15", occasion := "birthday",
          name := "John Doe", email := "test@example.com", specialRequests := "" }).2 =
        false := by
      simp [validateForm, hg]
    simp [this]
  · rw [handleSubmit_state]
    simp [validateForm, hd, hg, ht, hn, he]

/-- Witness for C13 at noon UTC on 2024-03-10 with the date of the next day. -/
theorem isFormValid_true_yet_submit_fails_witness :
    validateDate (isoClock 1710072000000 0) "2024-03-11" = "" ∧
    isFormValid (run (isoClock 1710072000000 0) initialState
      (fillWithFifteenGuests "2024-03-11")) = true ∧
    (handleSubmit (isoClock 1710072000000 0)
      (run (isoClock 1710072000000 0) initialState
        (fillWithFifteenGuests "2024-03-11"))).2.booking = none :=
  ⟨by decide,
    (isFormValid_true_yet_submit_fails (isoClock 1710072000000 0) "2024-03-11"
      (by decide)).2.1,
    (isFormValid_true_yet_submit_fails (isoClock 1710072000000 0) "2024-03-11"
      (by decide)).2.2.2.1⟩

/-! ## Dates that do not parse -/

/-- C14: a non-empty string that does not parse to a date is accepted by
`validateDate`; the non-empty strings it rejects are exactly those that parse
to an instant before today's local midnight, and their message is
`Please select a future date`. -/
theorem validateDate_accepts_unparsable (clock : Clock) (d : String) (hd : d ≠ "") :
    (clock.parse d = none → validateDate clock d = "") ∧
    (validateDate clock d ≠ "" ↔ ∃ t, clock.parse d = some t ∧ t < localMidnight clock) ∧
    (validateDate clock d ≠ "" → validateDate clock d = "Please select a future date") := by
  cases hp : clock.parse d with
  | none =>
    have h : validateDate clock d = "" := by simp [validateDate, hd, hp, dateLt]
    simp [h]
  | some t =>
    rw [validateDate_of_parse clock d t hd hp]
    by_cases hlt : t < localMidnight clock
    · simp only [hlt, if_true, Option.some.injEq, exists_eq_left', reduceCtorEq, false_implies,
        true_and, implies_true, and_true, iff_true]
      decide
    · simp [hlt]

/-- Witness for C14 at the string `not-a-date`, which the ISO parser rejects. -/
theorem validateDate_accepts_unparsable_witness :
    ("not-a-date" : String) ≠ "" ∧ (isoClock 0 0).parse "not-a-date" = none ∧
    validateDate (isoClock 0 0) "not-a-date" = "" :=
  ⟨by decide, by decide,
    (validateDate_accepts_unparsable (isoClock 0 0) "not-a-date" (by decide)).1 (by decide)⟩

end LittleLemon
